import Mathlib

/-
Verification development for the cpplog logging library.

The definitions below are shallow embeddings of the C++ sources:
  - format.cc            (util::log::Format and friends)
  - log.cc               (cpplog::internal: levels, QueueMessage, Emit,
                          _StringToLevel, _LevelToLongString,
                          _GetFilenameToDisplay, _ProcessMessageQueue)
  - log_new.cc           (the earlier iteration of Emit's per-level file loop)
  - the old util::log::Log (StringToLogLevel)

Strings are modelled as Lean String / List Char; the std::deque message
queue as a Lean list; the filesystem seen by the rotating file sink as an
association list from path to the list of written lines; std::exit as a
returned exit code.  Loops whose termination is part of what is being
verified (the find/replace loop of util::log::Format) are given explicit
fuel, with fuel exhaustion returning none.
-/

set_option maxRecDepth 10000

/--
Level mirrors the C++ enum
  `enum Level \x7b TRACE, DEBUG, INFO, WARNING, ERROR, FATAL, N_LEVELS \x7d;`
shared (up to the N_LEVELS sentinel) by cpplog::internal::Level and
util::log::Log::Level.  Ordinal comparison drives all filtering.
-/
inductive Level where
  | TRACE
  | DEBUG
  | INFO
  | WARNING
  | ERROR
  | FATAL
  deriving DecidableEq

/-- Ordinal of a level, as the C++ enum value. -/
def Level.toNat : Level → Nat
  | .TRACE => 0
  | .DEBUG => 1
  | .INFO => 2
  | .WARNING => 3
  | .ERROR => 4
  | .FATAL => 5

/-- All six levels in enum order (TRACE first). -/
def allLevels : List Level :=
  [.TRACE, .DEBUG, .INFO, .WARNING, .ERROR, .FATAL]

/--
LogMessage mirrors cpplog::internal::LogMessage restricted to the fields
the verified claims observe (level_, verbosity_, line_, file_,
msg_format_); the capture timestamp and the positional argument list take
no part in any claim and are omitted.
-/
structure LogMessage where
  level : Level
  verbosity : Nat
  line : Nat
  file : String
  msgFormat : String
  deriving DecidableEq

/-- ASCII upper-casing of one character: model of ::toupper as used by the
external string::ToUpper collaborator. -/
def toUpperChar (c : Char) : Char :=
  if 'a' ≤ c ∧ c ≤ 'z' then Char.ofNat (c.toNat - 32) else c

/-- ASCII lower-casing of one character: model of ::tolower as used by
Log::StringToLogLevel. -/
def toLowerChar (c : Char) : Char :=
  if 'A' ≤ c ∧ c ≤ 'Z' then Char.ofNat (c.toNat + 32) else c

/-- Model of string::ToUpper (ASCII). -/
def toUpperStr (s : String) : String :=
  String.mk (s.data.map toUpperChar)

/-- Model of the std::transform + ::tolower lower-casing in
Log::StringToLogLevel (ASCII). -/
def toLowerStr (s : String) : String :=
  String.mk (s.data.map toLowerChar)

/-- Embedding of cpplog::internal::_LevelToLongString (log.cc): the long
upper-case name of each level. -/
def cpplog.internal._LevelToLongString : Level → String
  | .TRACE => "TRACE"
  | .DEBUG => "DEBUG"
  | .INFO => "INFO"
  | .WARNING => "WARNING"
  | .ERROR => "ERROR"
  | .FATAL => "FATAL"

/-- Embedding of cpplog::internal::_StringToLevel (log.cc): upper-cases its
argument, compares against the six long names, and falls back to TRACE for
anything unrecognized. -/
def cpplog.internal._StringToLevel (level : String) : Level :=
  let level_upper := toUpperStr level
  if level_upper = "TRACE" then .TRACE
  else if level_upper = "DEBUG" then .DEBUG
  else if level_upper = "INFO" then .INFO
  else if level_upper = "WARNING" then .WARNING
  else if level_upper = "ERROR" then .ERROR
  else if level_upper = "FATAL" then .FATAL
  else .TRACE

/-- Embedding of util::log::Log::StringToLogLevel (the old log.cc):
lower-cases its argument and compares against the six lower-case names;
an unrecognized name throws std::invalid_argument, modelled as none. -/
def util.log.Log.StringToLogLevel (level : String) : Option Level :=
  let level_lower := toLowerStr level
  if level_lower = "trace" then some .TRACE
  else if level_lower = "debug" then some .DEBUG
  else if level_lower = "info" then some .INFO
  else if level_lower = "warning" then some .WARNING
  else if level_lower = "error" then some .ERROR
  else if level_lower = "fatal" then some .FATAL
  else none

/--
File-sink targets of cpplog::internal::LogMessage::Emit in log.cc: the loop
  `for (int i = min_level; i <= level_; i++)` writes LOG_FILES[i],
so a record at msgLevel is written to the per-level file of every level i
with min_level <= i <= msgLevel.
-/
def cpplog.internal.fileTargets (minLevel msgLevel : Level) : List Level :=
  allLevels.filter (fun f =>
    decide (minLevel.toNat ≤ f.toNat) && decide (f.toNat ≤ msgLevel.toNat))

/--
File-sink targets of LogMessage::Emit in log_new.cc (the earlier
iteration): the loop `for (int i = level_; i < N_LEVELS; i++)` writes
LOG_FILES[i], so a record at msgLevel is written to the file of every
level i with i >= msgLevel.
-/
def cpplog.internal.fileTargetsLogNew (msgLevel : Level) : List Level :=
  allLevels.filter (fun f => decide (msgLevel.toNat ≤ f.toNat))

/-- Opening brace character (written via its code point so that brace
characters appear only inside strings of the modelled programs). -/
def lbrace : Char := Char.ofNat 123

/-- Closing brace character. -/
def rbrace : Char := Char.ofNat 125

/-- Boolean test that pat occurs at the very start of s (character list
version of std::string comparison at an offset). -/
def listLeads : List Char → List Char → Bool
  | [], _ => true
  | _ :: _, [] => false
  | a :: as, b :: bs => if a = b then listLeads as bs else false

/-- Model of std::string::find(pat): index of the first occurrence of pat
in s, none when there is no occurrence (npos). -/
def strFind (pat : List Char) : List Char → Option Nat
  | [] => if listLeads pat [] then some 0 else none
  | c :: t =>
    if listLeads pat (c :: t) then some 0
    else (strFind pat t).map (fun i => i + 1)

/-- Model of std::string::replace(location, len, val): the characters at
positions [location, location+len) are replaced by val. -/
def replaceFirst (s : List Char) (location len : Nat) (val : List Char) : List Char :=
  s.take location ++ val ++ s.drop (location + len)

/-- The inner while-loop of util::log::Format: find the first occurrence
of key, replace it with val, and search again from the start of the whole
string, until no occurrence remains.  The loop in the C++ source has no
fuel; fuel exhaustion (none) models the loop still running. -/
def replaceLoop : Nat → List Char → List Char → List Char → Option (List Char)
  | 0, _, _, _ => none
  | fuel + 1, key, val, s =>
    match strFind key s with
    | none => some s
    | some location => replaceLoop fuel key val (replaceFirst s location key.length val)

/-- The search key built for a binding: "\x7b" + name + "\x7d". -/
def toKeyPat (name : String) : List Char :=
  lbrace :: name.data ++ [rbrace]

/-- Embedding of util::log::Format (format.cc): for each binding in
iteration order, run the find/replace loop for its key over the whole
result string.  The std::unordered_map argument is modelled as the list of
its pairs in iteration order; fuel bounds the unbounded C++ loop, with
none meaning the loop was still running when the fuel ran out. -/
def util.log.Format (fuel : Nat) (fmt : String) (args : List (String × String)) : Option String :=
  (args.foldl
      (fun acc kv => acc.bind (replaceLoop fuel (toKeyPat kv.1) kv.2.data))
      (some fmt.data)).map String.mk

/-- Lookup of a tag name among the bindings (name compared as characters). -/
def specLookup : List (String × String) → List Char → Option (List Char)
  | [], _ => none
  | kv :: rest, name =>
    if kv.1.data = name then some kv.2.data else specLookup rest name

/-- Single left-to-right scan over the template: at a well-formed bound tag
"\x7b" name "\x7d" the binding is emitted and the scan continues after the
tag (the substituted value is never re-scanned); anything else is copied
verbatim.  Fuel is structural only; fuel equal to the length of the
template always suffices since every step consumes at least one input
character. -/
def specScan (bs : List (String × String)) : Nat → List Char → List Char
  | _, [] => []
  | 0, s => s
  | fuel + 1, c :: rest =>
    if c = lbrace then
      match specLookup bs (rest.takeWhile Char.isAlphanum),
            rest.drop (rest.takeWhile Char.isAlphanum).length with
      | some v, d :: tail =>
        if d = rbrace ∧ rest.takeWhile Char.isAlphanum ≠ [] then
          v ++ specScan bs fuel tail
        else c :: specScan bs fuel rest
      | _, _ => c :: specScan bs fuel rest
    else c :: specScan bs fuel rest

/-- Modelled from the spec: the specification's description of Format
("for every \x7bname\x7d occurring in template, replaces all occurrences
with bindings[name], scanning left-to-right; a key absent from bindings is
left as the literal \x7bname\x7d; replacement is not recursive: if a
substituted value itself contains \x7bname\x7d, it is not re-scanned").
This definition follows the spec's words, for comparison against
util.log.Format, which is translated from format.cc. -/
def util.log.FormatSpec (bindings : List (String × String)) (fmt : String) : String :=
  String.mk (specScan bindings fmt.data.length fmt.data)

/-- Count of opening braces in a string; the termination measure of the
find/replace loop for brace-free replacement values. -/
def countBrace (s : List Char) : Nat :=
  s.count lbrace

/-- EXIT_FAILURE, the status std::exit is called with on a FATAL record. -/
def EXIT_FAILURE : Nat := 1

/--
DispatchState is the state cpplog::internal::QueueMessage (log.cc) reads
and writes: the async toggle --async_logging, the pending
LOG_MESSAGE_QUEUE, and the list of records already emitted to the sinks
(in emission order).
-/
structure DispatchState where
  asyncLogging : Bool
  queue : List LogMessage
  delivered : List LogMessage
  deriving DecidableEq

/--
Embedding of cpplog::internal::QueueMessage (log.cc).  In async mode the
call busy-waits while LOG_MESSAGE_QUEUE.size() > FLAGS_async_queue_max_len
(modelled: the call has not yet returned, none), then pushes the record
onto the queue; in sync mode it emits the record inline via
_DoEmitMessage.  In either mode, if the record's level is FATAL the call
then invokes std::exit(EXIT_FAILURE), modelled as the second component
carrying some EXIT_FAILURE; no waiting for the queue to drain happens
between the push and the exit.
-/
def cpplog.internal.QueueMessage (maxLen : Nat) (st : DispatchState) (msg : LogMessage) :
    Option (DispatchState × Option Nat) :=
  if st.asyncLogging then
    if maxLen < st.queue.length then
      none
    else
      some ({ st with queue := st.queue ++ [msg] },
            if msg.level = Level.FATAL then some EXIT_FAILURE else none)
  else
    some ({ st with delivered := st.delivered ++ [msg] },
          if msg.level = Level.FATAL then some EXIT_FAILURE else none)

/--
QueueState tracks the delivery queue together with its history: enq is
the total sequence of records enqueued so far (in insertion-lock order),
pending the current contents of LOG_MESSAGE_QUEUE, deliv the records the
worker thread has emitted, in emission order.
-/
structure QueueState where
  enq : List LogMessage
  pending : List LogMessage
  deliv : List LogMessage

/--
QueueStep is one atomic transition of the asynchronous pipeline: either a
producer appends a record under the insertion lock (QueueMessage's
push_back), or the worker thread takes the front record and emits it
(_ProcessMessageQueue's front/pop_front/_DoEmitMessage).
-/
inductive QueueStep : QueueState → QueueState → Prop
  | enqueue (st : QueueState) (msg : LogMessage) :
      QueueStep st ⟨st.enq ++ [msg], st.pending ++ [msg], st.deliv⟩
  | deliver (st : QueueState) (msg : LogMessage) (rest : List LogMessage) :
      st.pending = msg :: rest →
      QueueStep st ⟨st.enq, rest, st.deliv ++ [msg]⟩

/-- States reachable from the initial empty queue by any interleaving of
producer enqueues and worker deliveries. -/
inductive QueueReachable : QueueState → Prop
  | init : QueueReachable ⟨[], [], []⟩
  | step {s t : QueueState} : QueueReachable s → QueueStep s t → QueueReachable t

/-- The backup path a rotation renames the full file to:
out_file_path.string() + ".old". -/
def oldPath (p : String) : String := p ++ ".old"

/-- Content of a path in the modelled filesystem (a file that does not
exist reads as empty, as a fresh ofstream makes it). -/
def fsGet : List (String × List String) → String → List String
  | [], _ => []
  | (q, c) :: rest, p => if q = p then c else fsGet rest p

/-- Write content c at path p (creating or overwriting, as
boost::filesystem::rename onto an existing target overwrites it). -/
def fsSet : List (String × List String) → String → List String → List (String × List String)
  | [], p, c => [(p, c)]
  | (q, d) :: rest, p, c => if q = p then (p, c) :: rest else (q, d) :: fsSet rest p c

/-- Paths present in the modelled filesystem. -/
def fsKeys (fs : List (String × List String)) : List String :=
  fs.map Prod.fst

/-- Size in bytes of a file's content: each written line is followed by
one newline (std::endl). -/
def contentSize (lines : List String) : Nat :=
  (lines.map (fun l => l.data.length + 1)).sum

/--
Embedding of the file-sink write step of LogMessage::Emit (log.cc) for one
per-level file at path p.  Before the write the accumulated size is
checked:
  `if (file_size / 1024.0 / 1024.0 > FLAGS_logfile_max_size_mb)`
(the division by two powers of two is exact in double, so the test equals
file_size > maxBytes with maxBytes = FLAGS_logfile_max_size_mb * 2^20);
if exceeded, the handle is closed, the file is renamed to p + ".old"
(overwriting any file already at that path) and a fresh file is opened at
p; then the line is written and flushed.  The Bool result records whether
a rotation happened at this write.
-/
def cpplog.internal.emitFileWrite (p : String) (maxBytes : Nat)
    (fs : List (String × List String)) (line : String) :
    List (String × List String) × Bool :=
  if maxBytes < contentSize (fsGet fs p) then
    (fsSet (fsSet fs (oldPath p) (fsGet fs p)) p [line], true)
  else
    (fsSet fs p (fsGet fs p ++ [line]), false)

/-- A sequence of writes to the same per-level file. -/
def cpplog.internal.runFileWrites (p : String) (maxBytes : Nat)
    (fs : List (String × List String)) : List String → List (String × List String)
  | [] => fs
  | line :: rest =>
    cpplog.internal.runFileWrites p maxBytes (cpplog.internal.emitFileWrite p maxBytes fs line).1 rest

/-- Split a filename at its last dot: some (stem-part, dot-suffix) when
the name contains a dot, none otherwise. -/
def breakAtLastDot : List Char → Option (List Char × List Char)
  | [] => none
  | c :: rest =>
    match breakAtLastDot rest with
    | some (s, e) => some (c :: s, e)
    | none => if c = '.' then some ([], c :: rest) else none

/-- Model of boost::filesystem stem()/extension() on a filename: "." and
".." have no extension; otherwise the extension starts at the last dot
(and includes it), the stem is everything before it. -/
def splitStemExt (name : List Char) : List Char × List Char :=
  if name = ['.'] ∨ name = ['.', '.'] then (name, [])
  else
    match breakAtLastDot name with
    | some (s, e) => (s, e)
    | none => (name, [])

/-- The three-character ellipsis inserted by filename elision. -/
def ellipsis : List Char := ['.', '.', '.']

/--
Embedding of the filename part of cpplog::internal::_GetFilenameToDisplay
(log.cc).  A name no longer than maxLen is left-padded with spaces to
maxLen.  Otherwise the name is split into stem and extension;
  `int chars_left = FLAGS_max_filename_len - (ext.length() + 3 + 1 + 2);`
is computed in integer arithmetic (modelled in Int, matching the value the
C++ conversion produces on the relevant inputs); if chars_left <= 0 the
stem is truncated to maxLen outright, else the result is
stem-prefix ++ "..." ++ last-two-of-stem ++ "." ++ ext (ext still carries
its own leading dot).
-/
def cpplog.internal.elideFilename (maxLen : Nat) (filename : List Char) : List Char :=
  if filename.length ≤ maxLen then
    List.replicate (maxLen - filename.length) ' ' ++ filename
  else if ((maxLen : Int) - (((splitStemExt filename).2.length : Int) + 3 + 1 + 2)) ≤ 0 then
    (splitStemExt filename).1.take maxLen
  else
    (splitStemExt filename).1.take
        ((maxLen : Int) - (((splitStemExt filename).2.length : Int) + 3 + 1 + 2)).toNat
      ++ ellipsis
      ++ (splitStemExt filename).1.drop ((splitStemExt filename).1.length - 2)
      ++ '.' :: (splitStemExt filename).2

/-- Line number rendered and right-padded with spaces to
FLAGS_max_line_number_len characters. -/
def padLineNumber (maxLineLen : Nat) (line : Nat) : List Char :=
  let ln := (Nat.repr line).data
  if ln.length < maxLineLen then ln ++ List.replicate (maxLineLen - ln.length) ' ' else ln

/-- Embedding of cpplog::internal::_GetFilenameToDisplay (log.cc): the
elided or padded filename, a colon, and the padded line number. -/
def cpplog.internal._GetFilenameToDisplay (maxLen maxLineLen : Nat) (line : Nat)
    (filename : List Char) : List Char :=
  cpplog.internal.elideFilename maxLen filename ++ ':' :: padLineNumber maxLineLen line

/-- Fixture record used by concrete instances of the theorems below. -/
def msgA : LogMessage := ⟨Level.INFO, 0, 10, "a.cc", "alpha"⟩

/-- Fixture record. -/
def msgB : LogMessage := ⟨Level.DEBUG, 0, 11, "b.cc", "beta"⟩

/-- Fixture record. -/
def msgC : LogMessage := ⟨Level.WARNING, 0, 12, "c.cc", "gamma"⟩

/-- Fixture FATAL record. -/
def fatalMsg : LogMessage := ⟨Level.FATAL, 0, 42, "main.cc", "boom"⟩

/-- A successful listLeads test exhibits the remainder of the string. -/
theorem listLeads_exists {pat s : List Char} (h : listLeads pat s = true) :
    ∃ t, s = pat ++ t := by
  induction pat generalizing s with
  | nil => exact ⟨s, rfl⟩
  | cons a as ih =>
    cases s with
    | nil => simp [listLeads] at h
    | cons b bs =>
      by_cases hab : a = b
      · subst hab
        simp only [listLeads, if_pos rfl] at h
        obtain ⟨t, ht⟩ := ih h
        exact ⟨t, by simp [ht]⟩
      · simp [listLeads, hab] at h

/-- A successful strFind decomposes the string around the pattern, with
the returned index the length of the part before the occurrence. -/
theorem strFind_decomp {pat : List Char} :
    ∀ {s : List Char} {i : Nat}, strFind pat s = some i →
      ∃ A B, s = A ++ pat ++ B ∧ A.length = i := by
  intro s
  induction s with
  | nil =>
    intro i h
    simp only [strFind] at h
    split at h
    case isTrue hl =>
      obtain ⟨t, ht⟩ := listLeads_exists hl
      have hp : pat = [] := by
        cases pat with
        | nil => rfl
        | cons a as => exact absurd ht.symm (by simp)
      cases h
      exact ⟨[], [], by simp [hp], rfl⟩
    case isFalse => cases h
  | cons c t ih =>
    intro i h
    simp only [strFind] at h
    split at h
    case isTrue hl =>
      obtain ⟨tt, htt⟩ := listLeads_exists hl
      cases h
      exact ⟨[], tt, by simpa using htt, rfl⟩
    case isFalse hl =>
      cases hf : strFind pat t with
      | none => rw [hf] at h; cases h
      | some j =>
        rw [hf] at h
        simp only [Option.map_some'] at h
        injection h with h
        obtain ⟨A, B, hAB, hA⟩ := ih hf
        refine ⟨c :: A, B, by simp [hAB], ?_⟩
        simp [List.length_cons, hA, h]

/-- Replacing the found occurrence rewrites exactly the middle part. -/
theorem replaceFirst_decomp (A key B val : List Char) :
    replaceFirst (A ++ key ++ B) A.length key.length val = A ++ val ++ B := by
  simp only [replaceFirst]
  have h1 : (A ++ key ++ B).take A.length = A := by
    rw [List.append_assoc]; exact List.take_left A (key ++ B)
  have h2 : (A ++ key ++ B).drop (A.length + key.length) = B := by
    rw [← List.length_append]; exact List.drop_left (A ++ key) B
  rw [h1, h2]

/-- Brace count distributes over append. -/
theorem countBrace_append (a b : List Char) :
    countBrace (a ++ b) = countBrace a + countBrace b := by
  simp [countBrace, List.count_append]

/-- Every search key contains an opening brace. -/
theorem countBrace_key_pos (name : String) : 0 < countBrace (toKeyPat name) := by
  simp only [toKeyPat, countBrace, List.count_cons]
  simp

/-- The find/replace loop terminates on any string with fewer opening
braces than the fuel, provided the replacement value is brace-free; the
brace count never grows. -/
theorem replaceLoop_total {key val : List Char}
    (hkey : 0 < countBrace key) (hval : countBrace val = 0) :
    ∀ (fuel : Nat) (s : List Char), countBrace s < fuel →
      ∃ r, replaceLoop fuel key val s = some r ∧ countBrace r ≤ countBrace s := by
  intro fuel
  induction fuel with
  | zero => intro s h; exact absurd h (Nat.not_lt_zero _)
  | succ n ih =>
    intro s hs
    cases hf : strFind key s with
    | none => exact ⟨s, by simp [replaceLoop, hf], le_refl _⟩
    | some i =>
      obtain ⟨A, B, hAB, hA⟩ := strFind_decomp hf
      have hrepl : replaceFirst s i key.length val = A ++ val ++ B := by
        rw [hAB, ← hA]; exact replaceFirst_decomp A key B val
      have hcount : countBrace (A ++ val ++ B) < countBrace (A ++ key ++ B) := by
        simp only [countBrace_append, hval]
        omega
      have hseq : countBrace s = countBrace (A ++ key ++ B) := by rw [hAB]
      have hlt : countBrace (replaceFirst s i key.length val) < n := by
        rw [hrepl]; omega
      obtain ⟨r, hr, hcr⟩ := ih _ hlt
      have hre : countBrace (replaceFirst s i key.length val) = countBrace (A ++ val ++ B) := by
        rw [hrepl]
      refine ⟨r, ?_, ?_⟩
      · simp [replaceLoop, hf, hr]
      · omega

/-- Iterating the loop over all bindings terminates when every binding
value is brace-free: the brace count of the working string only falls. -/
theorem formatFold_total :
    ∀ (args : List (String × String)) (s : List Char) (fuel : Nat),
      countBrace s < fuel → (∀ kv ∈ args, countBrace kv.2.data = 0) →
      ∃ r,
        args.foldl (fun acc kv => acc.bind (replaceLoop fuel (toKeyPat kv.1) kv.2.data))
            (some s) = some r
        ∧ countBrace r ≤ countBrace s := by
  intro args
  induction args with
  | nil => intro s fuel h _; exact ⟨s, rfl, le_refl _⟩
  | cons kv rest ih =>
    intro s fuel hs hv
    have hval : countBrace kv.2.data = 0 := hv kv (by simp)
    obtain ⟨s1, h1, hc1⟩ :=
      replaceLoop_total (countBrace_key_pos kv.1) hval fuel s hs
    have hs1 : countBrace s1 < fuel := lt_of_le_of_lt hc1 hs
    obtain ⟨r, hr, hcr⟩ := ih s1 fuel hs1 (fun x hx => hv x (by simp [hx]))
    refine ⟨r, ?_, le_trans hcr hc1⟩
    simp only [List.foldl_cons, Option.some_bind, h1]
    exact hr

/-- When no binding's key occurs in the string, the whole fold is the
identity. -/
theorem formatFold_id (fuel : Nat) (s : List Char) (hf : 0 < fuel) :
    ∀ args : List (String × String),
      (∀ kv ∈ args, strFind (toKeyPat kv.1) s = none) →
      args.foldl (fun acc kv => acc.bind (replaceLoop fuel (toKeyPat kv.1) kv.2.data))
          (some s) = some s := by
  intro args
  induction args with
  | nil => intro _; rfl
  | cons kv rest ih =>
    intro hnone
    have hkv := hnone kv (by simp)
    have hstep : replaceLoop fuel (toKeyPat kv.1) kv.2.data s = some s := by
      cases fuel with
      | zero => exact absurd hf (lt_irrefl 0)
      | succ n => simp [replaceLoop, hkv]
    simp only [List.foldl_cons, Option.some_bind, hstep]
    exact ih (fun x hx => hnone x (by simp [hx]))

/-- On the self-referential binding a -> "\x7ba\x7d" the loop rewrites the
string to itself and runs forever: no amount of fuel finishes it. -/
theorem replaceLoop_selfkey_diverges :
    ∀ fuel : Nat,
      replaceLoop fuel (toKeyPat "a") ("\x7ba\x7d").data ("\x7ba\x7d").data = none := by
  intro fuel
  induction fuel with
  | zero => rfl
  | succ n ih =>
    have h1 : strFind (toKeyPat "a") ("\x7ba\x7d").data = some 0 := by decide
    have h2 : replaceFirst ("\x7ba\x7d").data 0 (toKeyPat "a").length ("\x7ba\x7d").data
        = ("\x7ba\x7d").data := by decide
    simp [replaceLoop, h1, h2, ih]

/--
Claim C3 counterexample.  The claim states that replacement is not
recursive: a \x7bname\x7d occurrence inside a substituted value is never
re-scanned or re-replaced.  On the template "\x7ba\x7d\x7d" with the
single binding a -> "\x7ba", util::log::Format re-finds from the start of
the whole string after each replacement, so the "\x7ba\x7d" formed by the
substituted value together with the following brace is replaced again,
giving "\x7ba"; the specification's non-recursive single scan
(util.log.FormatSpec) gives "\x7ba\x7d" instead.
-/
theorem C3_format_counterexample :
    util.log.Format 10 "\x7ba\x7d\x7d" [("a", "\x7ba")] = some "\x7ba"
    ∧ util.log.FormatSpec [("a", "\x7ba")] "\x7ba\x7d\x7d" = "\x7ba\x7d"
    ∧ ("\x7ba" : String) ≠ "\x7ba\x7d" :=
  ⟨by decide, by decide, by decide⟩

/--
Claim C3, amended.  util::log::Format is not total and its replacement is
recursive: the loop re-finds the key from position 0 after every
substitution, so for the binding a -> "\x7ba\x7d" on template "\x7ba\x7d"
the loop rewrites the string to itself forever (no fuel suffices).
Format does terminate (with some result) on every input in which every
binding's value is free of opening braces.
-/
theorem C3_format_termination :
    (∀ (fmt : String) (args : List (String × String)),
        (∀ kv ∈ args, countBrace kv.2.data = 0) →
        ∃ r, util.log.Format (countBrace fmt.data + 1) fmt args = some r)
    ∧ (∀ fuel : Nat, util.log.Format fuel "\x7ba\x7d" [("a", "\x7ba\x7d")] = none) := by
  constructor
  · intro fmt args hv
    obtain ⟨r, hr, _⟩ :=
      formatFold_total args fmt.data (countBrace fmt.data + 1) (Nat.lt_succ_self _) hv
    exact ⟨String.mk r, by simp [util.log.Format, hr]⟩
  · intro fuel
    have h := replaceLoop_selfkey_diverges fuel
    simp [util.log.Format, h]

/--
Witness for C3_format_termination: on the brace-free instance
fmt = "x", args = [("k", "v")] the first conjunct applies and yields a
result.
-/
theorem C3_format_termination_witness :
    ∃ r, util.log.Format (countBrace ("x").data + 1) "x" [("k", "v")] = some r :=
  C3_format_termination.1 "x" [("k", "v")] (by decide)

/--
Claim C8 counterexample.  The claim states that for every template and
bindings map Format replaces all occurrences of each bound \x7bname\x7d
with its binding and leaves everything else untouched.  On "\x7bb\x7d\x7d"
with b -> "\x7bb", the one occurrence of "\x7bb\x7d" replaced by its
binding would give "\x7bb\x7d" (as the specification's scan
util.log.FormatSpec does); util::log::Format instead re-scans the
substituted text and produces "\x7bb".
-/
theorem C8_format_counterexample :
    util.log.Format 10 "\x7bb\x7d\x7d" [("b", "\x7bb")] = some "\x7bb"
    ∧ util.log.FormatSpec [("b", "\x7bb")] "\x7bb\x7d\x7d" = "\x7bb\x7d"
    ∧ ("\x7bb" : String) ≠ "\x7bb\x7d" :=
  ⟨by decide, by decide, by decide⟩

/--
Claim C8, amended.  util::log::Format processes bindings one at a time and
re-scans the whole string after each replacement, so substituted text can
combine with surrounding text and be replaced again; when no binding's
key occurs in the template at all the template is returned unchanged (in
particular unknown tags are left as literal text), and the concrete
examples hold in both iteration orders of the two-binding map:
Format("\x7ba\x7d-\x7bb\x7d", \x7ba: "1", b: "2"\x7d) = "1-2",
Format("\x7ba\x7d\x7ba\x7d", \x7ba: "x"\x7d) = "xx",
Format("\x7bz\x7d", \x7b\x7d) = "\x7bz\x7d".
-/
theorem C8_format_replacement :
    util.log.Format 10 "\x7ba\x7d-\x7bb\x7d" [("a", "1"), ("b", "2")] = some "1-2"
    ∧ util.log.Format 10 "\x7ba\x7d-\x7bb\x7d" [("b", "2"), ("a", "1")] = some "1-2"
    ∧ util.log.Format 10 "\x7ba\x7d\x7ba\x7d" [("a", "x")] = some "xx"
    ∧ util.log.Format 10 "\x7bz\x7d" [] = some "\x7bz\x7d"
    ∧ (∀ (fuel : Nat) (fmt : String) (args : List (String × String)),
        0 < fuel → (∀ kv ∈ args, strFind (toKeyPat kv.1) fmt.data = none) →
        util.log.Format fuel fmt args = some fmt) := by
  refine ⟨by decide, by decide, by decide, by decide, ?_⟩
  intro fuel fmt args hf hnone
  have h := formatFold_id fuel fmt.data hf args hnone
  simp [util.log.Format, h]

/--
Witness for C8_format_replacement: the no-occurrence conjunct applied to
the template "z" and the binding list [("q", "1")], whose key does not
occur.
-/
theorem C8_format_replacement_witness :
    util.log.Format 1 "z" [("q", "1")] = some "z" :=
  C8_format_replacement.2.2.2.2 1 "z" [("q", "1")] (by decide) (by decide)

/-- Every level is in the enumeration list. -/
theorem mem_allLevels (l : Level) : l ∈ allLevels := by
  cases l <;> simp [allLevels]

/--
Claim C2 counterexample.  The claim states the FATAL file contains every
record of every severity and the TRACE file only TRACE records.  In
LogMessage::Emit (log.cc) the loop runs i from the file threshold up to
the record's level, so with threshold TRACE an INFO record is not written
to the FATAL file, while a FATAL record is written to the TRACE file.
-/
theorem C2_cascade_counterexample :
    Level.FATAL ∉ cpplog.internal.fileTargets Level.TRACE Level.INFO
    ∧ Level.TRACE ∈ cpplog.internal.fileTargets Level.TRACE Level.FATAL :=
  ⟨by decide, by decide⟩

/--
Claim C2, amended.  In log.cc a record at level L is written to the
per-level file of every level in [file-threshold, L], so (with threshold
TRACE) the TRACE file contains every record of every severity and the
FATAL file contains only FATAL records; the earlier iteration in
log_new.cc writes to the files of every level in [L, FATAL], which is the
direction the claim describes (FATAL file a superset of everything).
-/
theorem C2_cascade_direction :
    (∀ (minLevel msgLevel f : Level),
        f ∈ cpplog.internal.fileTargets minLevel msgLevel
          ↔ minLevel.toNat ≤ f.toNat ∧ f.toNat ≤ msgLevel.toNat)
    ∧ (∀ (msgLevel f : Level),
        f ∈ cpplog.internal.fileTargetsLogNew msgLevel ↔ msgLevel.toNat ≤ f.toNat)
    ∧ (∀ msgLevel : Level, Level.TRACE ∈ cpplog.internal.fileTargets Level.TRACE msgLevel) := by
  refine ⟨?_, ?_, ?_⟩
  · intro minLevel msgLevel f
    simp [cpplog.internal.fileTargets, List.mem_filter, mem_allLevels f]
  · intro msgLevel f
    simp [cpplog.internal.fileTargetsLogNew, List.mem_filter, mem_allLevels f]
  · intro msgLevel
    cases msgLevel <;> decide

/--
Claim C7 counterexample.  The claim states every unrecognized level name
fails the parse with an invalid-argument condition.
cpplog::internal::_StringToLevel (log.cc) instead maps the unrecognized
name "bogus" to the default level TRACE without any error.
-/
theorem C7_parse_counterexample :
    cpplog.internal._StringToLevel "bogus" = Level.TRACE := by decide

/--
Claim C7, amended.  The old parser util::log::Log::StringToLogLevel
surfaces an invalid-argument condition (modelled none) on every
unrecognized name, but cpplog::internal::_StringToLevel (log.cc) silently
maps every unrecognized name to the default level TRACE.
-/
theorem C7_parse_errors :
    (∀ s : String,
        toLowerStr s ∉ (["trace", "debug", "info", "warning", "error", "fatal"] : List String) →
        util.log.Log.StringToLogLevel s = none)
    ∧ (∀ s : String,
        toUpperStr s ∉ (["TRACE", "DEBUG", "INFO", "WARNING", "ERROR", "FATAL"] : List String) →
        cpplog.internal._StringToLevel s = Level.TRACE) := by
  constructor
  · intro s h
    simp only [List.mem_cons, List.mem_singleton, not_or] at h
    obtain ⟨h1, h2, h3, h4, h5, h6⟩ := h
    simp [util.log.Log.StringToLogLevel, h1, h2, h3, h4, h5, h6]
  · intro s h
    simp only [List.mem_cons, List.mem_singleton, not_or] at h
    obtain ⟨h1, h2, h3, h4, h5, h6⟩ := h
    simp [cpplog.internal._StringToLevel, h1, h2, h3, h4, h5, h6]

/--
Witness for C7_parse_errors at the unrecognized name "bogus": the old
parser reports the error and the new one returns TRACE.
-/
theorem C7_parse_errors_witness :
    util.log.Log.StringToLogLevel "bogus" = none
    ∧ cpplog.internal._StringToLevel "bogus" = Level.TRACE :=
  ⟨C7_parse_errors.1 "bogus" (by decide), C7_parse_errors.2 "bogus" (by decide)⟩

/--
Claim C10 (confirmed): parsing the long level name back yields the same
level, _StringToLevel (_LevelToLongString l) = l for each of the six
levels, and the parse is case-insensitive: any string whose ASCII
upper-casing equals the long name of l parses to l.
-/
theorem C10_level_roundtrip :
    (∀ l : Level,
        cpplog.internal._StringToLevel (cpplog.internal._LevelToLongString l) = l)
    ∧ (∀ (l : Level) (s : String),
        toUpperStr s = cpplog.internal._LevelToLongString l →
        cpplog.internal._StringToLevel s = l) := by
  constructor
  · intro l; cases l <;> decide
  · intro l s h
    cases l <;>
      (simp only [cpplog.internal._LevelToLongString] at h;
       simp [cpplog.internal._StringToLevel, h])

/--
Witness for C10_level_roundtrip: the mixed-case spelling "iNfO"
upper-cases to "INFO" and parses to INFO.
-/
theorem C10_level_roundtrip_witness :
    cpplog.internal._StringToLevel "iNfO" = Level.INFO :=
  C10_level_roundtrip.2 Level.INFO "iNfO" (by decide)

/--
Claim C1 counterexample.  The claim states that in asynchronous mode the
process never terminates between enqueue and delivery of a FATAL record.
cpplog::internal::QueueMessage (log.cc) pushes the record and immediately
calls std::exit(EXIT_FAILURE): from an async state with an empty queue,
the call returns the exit directive while the FATAL record is still
sitting undelivered in the queue (delivered list unchanged).
-/
theorem C1_fatal_counterexample :
    cpplog.internal.QueueMessage 10000 ⟨true, [], []⟩ fatalMsg
      = some (⟨true, [fatalMsg], []⟩, some EXIT_FAILURE)
    ∧ EXIT_FAILURE ≠ 0 :=
  ⟨by decide, by decide⟩

/--
Claim C1, amended.  In asynchronous mode a call that logs a FATAL record
enqueues it and then immediately terminates the process with the non-zero
status EXIT_FAILURE, without waiting for the worker thread to dequeue or
write it: whenever the capacity guard lets the push proceed, QueueMessage
returns with the record appended to the pending queue, the delivered list
unchanged, and the exit directive set.
-/
theorem C1_fatal_exits_before_delivery :
    ∀ (maxLen : Nat) (st : DispatchState) (msg : LogMessage),
      st.asyncLogging = true → st.queue.length ≤ maxLen → msg.level = Level.FATAL →
      cpplog.internal.QueueMessage maxLen st msg
          = some ({ asyncLogging := true, queue := st.queue ++ [msg],
                    delivered := st.delivered }, some EXIT_FAILURE)
        ∧ EXIT_FAILURE ≠ 0 := by
  intro maxLen st msg ha hq hf
  refine ⟨?_, by decide⟩
  simp [cpplog.internal.QueueMessage, ha, hf, Nat.not_lt.mpr hq]

/--
Witness for C1_fatal_exits_before_delivery at a concrete async state
holding one pending record.
-/
theorem C1_fatal_exits_before_delivery_witness :
    cpplog.internal.QueueMessage 5 ⟨true, [msgA], []⟩ fatalMsg
        = some ({ asyncLogging := true, queue := [msgA] ++ [fatalMsg],
                  delivered := [] }, some EXIT_FAILURE)
      ∧ EXIT_FAILURE ≠ 0 :=
  C1_fatal_exits_before_delivery 5 ⟨true, [msgA], []⟩ fatalMsg rfl (by decide) rfl

/--
Claim C6 (code bug): the flag --async_queue_max_len documents "maximum
number of log messages to be stored in the queue until any additional
messages are blocked", but QueueMessage's guard spins only while
size() > max, so a producer inserts when the queue already holds exactly
max records: with max = 2 and two pending records the third push proceeds
and the queue length reaches 3, exceeding the configured bound.
-/
theorem C6_bound_exceeded :
    cpplog.internal.QueueMessage 2 ⟨true, [msgA, msgB], []⟩ msgC
      = some (⟨true, [msgA, msgB, msgC], []⟩, none)
    ∧ ¬ ([msgA, msgB, msgC].length ≤ 2) :=
  ⟨by decide, by decide⟩

/--
Claim C5 (confirmed): over every interleaving of producer enqueues and
worker deliveries, the enqueued history always equals the delivered
records followed by the pending queue — so records are delivered in
exactly the order they were enqueued, none is lost or duplicated, and
once the queue has drained every enqueued record has been delivered
exactly once.
-/
theorem C5_queue_fifo :
    ∀ s : QueueState, QueueReachable s →
      s.enq = s.deliv ++ s.pending ∧ (s.pending = [] → s.deliv = s.enq) := by
  intro s h
  have main : s.enq = s.deliv ++ s.pending := by
    induction h with
    | init => rfl
    | step hr hst ih =>
      cases hst with
      | enqueue msg => simp only [ih, List.append_assoc]
      | deliver msg rest hp =>
        rw [ih, hp]
        simp
  refine ⟨main, fun hp => ?_⟩
  rw [main, hp, List.append_nil]

/--
Witness for C5_queue_fifo at the concrete reachable state obtained by
enqueuing msgA then msgB and delivering msgA: the history [msgA, msgB]
equals delivered [msgA] followed by pending [msgB].
-/
theorem C5_queue_fifo_witness :
    ([msgA, msgB] : List LogMessage) = [msgA] ++ [msgB]
    ∧ (([msgB] : List LogMessage) = [] → ([msgA] : List LogMessage) = [msgA, msgB]) :=
  C5_queue_fifo ⟨[msgA, msgB], [msgB], [msgA]⟩
    (QueueReachable.step
      (QueueReachable.step
        (QueueReachable.step QueueReachable.init
          (QueueStep.enqueue ⟨[], [], []⟩ msgA))
        (QueueStep.enqueue ⟨[msgA], [msgA], []⟩ msgB))
      (QueueStep.deliver ⟨[msgA, msgB], [msgA, msgB], []⟩ msgA [msgB] rfl))

/-- Reading back the path just written yields the new content. -/
theorem fsGet_set_same (fs : List (String × List String)) (p : String) (c : List String) :
    fsGet (fsSet fs p c) p = c := by
  induction fs with
  | nil => simp [fsSet, fsGet]
  | cons qd rest ih =>
    obtain ⟨q, d⟩ := qd
    by_cases h : q = p
    · simp [fsSet, fsGet, h]
    · simp [fsSet, fsGet, h, ih]

/-- Writing one path leaves every other path unchanged. -/
theorem fsGet_set_other (fs : List (String × List String)) {p q : String}
    (c : List String) (h : q ≠ p) : fsGet (fsSet fs p c) q = fsGet fs q := by
  induction fs with
  | nil => simp [fsSet, fsGet, Ne.symm h]
  | cons rd rest ih =>
    obtain ⟨r, d⟩ := rd
    by_cases hr : r = p
    · subst hr
      simp [fsSet, fsGet, Ne.symm h]
    · simp [fsSet, fsGet, hr, ih]

/-- Keys of a cons cell. -/
theorem fsKeys_cons (a : String) (b : List String) (rest : List (String × List String)) :
    fsKeys ((a, b) :: rest) = a :: fsKeys rest := rfl

/-- A write introduces at most the written path. -/
theorem fsKeys_set_sub {fs : List (String × List String)} {p q : String}
    {c : List String} (h : q ∈ fsKeys (fsSet fs p c)) : q = p ∨ q ∈ fsKeys fs := by
  induction fs with
  | nil => exact Or.inl (by simpa [fsSet, fsKeys] using h)
  | cons rd rest ih =>
    obtain ⟨r, d⟩ := rd
    by_cases hr : r = p
    · rw [show fsSet ((r, d) :: rest) p c = (p, c) :: rest from by simp [fsSet, hr],
          fsKeys_cons] at h
      rcases List.mem_cons.mp h with h1 | h1
      · exact Or.inl h1
      · exact Or.inr (by rw [fsKeys_cons]; exact List.mem_cons_of_mem _ h1)
    · rw [show fsSet ((r, d) :: rest) p c = (r, d) :: fsSet rest p c from by
            simp [fsSet, hr],
          fsKeys_cons] at h
      rcases List.mem_cons.mp h with h1 | h1
      · exact Or.inr (by rw [fsKeys_cons]; exact List.mem_cons.mpr (Or.inl h1))
      · rcases ih h1 with h2 | h2
        · exact Or.inl h2
        · exact Or.inr (by rw [fsKeys_cons]; exact List.mem_cons_of_mem _ h2)

/-- The backup path differs from the live path. -/
theorem oldPath_ne (p : String) : oldPath p ≠ p := by
  intro h
  have hlen := congrArg String.length h
  simp only [oldPath, String.length_append] at hlen
  exact (by decide : (".old").length ≠ 0) (by omega)

/-- One write keeps the filesystem inside the live path and its single
backup. -/
theorem emitFileWrite_keys {p : String} {maxB : Nat}
    {fs : List (String × List String)} {line : String}
    (h : ∀ q ∈ fsKeys fs, q = p ∨ q = oldPath p) :
    ∀ q ∈ fsKeys (cpplog.internal.emitFileWrite p maxB fs line).1,
      q = p ∨ q = oldPath p := by
  intro q hq
  by_cases hc : maxB < contentSize (fsGet fs p)
  · simp only [cpplog.internal.emitFileWrite, if_pos hc] at hq
    rcases fsKeys_set_sub hq with h1 | h1
    · exact Or.inl h1
    · rcases fsKeys_set_sub h1 with h2 | h2
      · exact Or.inr h2
      · exact h q h2
  · simp only [cpplog.internal.emitFileWrite, if_neg hc] at hq
    rcases fsKeys_set_sub hq with h1 | h1
    · exact Or.inl h1
    · exact h q h1

/--
Claim C4 (confirmed): in the file sink of LogMessage::Emit (log.cc), a
write rotates exactly when the pre-write check sees the accumulated size
exceed the configured maximum; a rotation moves the whole current content
to the single backup path p + ".old" (overwriting any prior backup) and
reopens a fresh file at p holding just the new line; a non-rotating write
appends the line and leaves the backup untouched; and across any sequence
of writes the filesystem never holds any path besides p and p + ".old",
so at most one backup generation ever exists.
-/
theorem C4_rotation :
    (∀ (p : String) (maxB : Nat) (fs : List (String × List String)) (line : String),
        (cpplog.internal.emitFileWrite p maxB fs line).2 = true
          ↔ maxB < contentSize (fsGet fs p))
    ∧ (∀ (p : String) (maxB : Nat) (fs : List (String × List String)) (line : String),
        maxB < contentSize (fsGet fs p) →
        fsGet (cpplog.internal.emitFileWrite p maxB fs line).1 (oldPath p) = fsGet fs p
        ∧ fsGet (cpplog.internal.emitFileWrite p maxB fs line).1 p = [line])
    ∧ (∀ (p : String) (maxB : Nat) (fs : List (String × List String)) (line : String),
        ¬ maxB < contentSize (fsGet fs p) →
        fsGet (cpplog.internal.emitFileWrite p maxB fs line).1 (oldPath p)
            = fsGet fs (oldPath p)
        ∧ fsGet (cpplog.internal.emitFileWrite p maxB fs line).1 p = fsGet fs p ++ [line])
    ∧ (∀ (p : String) (maxB : Nat) (lines : List String)
          (fs : List (String × List String)),
        (∀ q ∈ fsKeys fs, q = p ∨ q = oldPath p) →
        ∀ q ∈ fsKeys (cpplog.internal.runFileWrites p maxB fs lines),
          q = p ∨ q = oldPath p) := by
  refine ⟨?_, ?_, ?_, ?_⟩
  · intro p maxB fs line
    by_cases hc : maxB < contentSize (fsGet fs p) <;>
      simp [cpplog.internal.emitFileWrite, hc]
  · intro p maxB fs line hc
    simp only [cpplog.internal.emitFileWrite, if_pos hc]
    constructor
    · rw [fsGet_set_other _ _ (oldPath_ne p), fsGet_set_same]
    · rw [fsGet_set_same]
  · intro p maxB fs line hc
    simp only [cpplog.internal.emitFileWrite, if_neg hc]
    constructor
    · rw [fsGet_set_other _ _ (oldPath_ne p)]
    · rw [fsGet_set_same]
  · intro p maxB lines
    induction lines with
    | nil => intro fs h q hq; exact h q hq
    | cons line rest ih =>
      intro fs h q hq
      exact ih _ (emitFileWrite_keys h) q hq

/--
Witness for C4_rotation: a file of 11 bytes with a 4-byte cap rotates on
the next write; the backup then holds the old content and the live file
only the new line.
-/
theorem C4_rotation_witness :
    fsGet (cpplog.internal.emitFileWrite "app.INFO" 4
        [("app.INFO", ["0123456789"])] "next").1 (oldPath "app.INFO") = ["0123456789"]
    ∧ fsGet (cpplog.internal.emitFileWrite "app.INFO" 4
        [("app.INFO", ["0123456789"])] "next").1 "app.INFO" = ["next"] :=
  C4_rotation.2.1 "app.INFO" 4 [("app.INFO", ["0123456789"])] "next" (by decide)

/-- Splitting at the last dot decomposes the name. -/
theorem breakAtLastDot_append :
    ∀ {name s e : List Char}, breakAtLastDot name = some (s, e) → name = s ++ e := by
  intro name
  induction name with
  | nil => intro s e h; simp [breakAtLastDot] at h
  | cons c rest ih =>
    intro s e h
    cases hb : breakAtLastDot rest with
    | some pair =>
      obtain ⟨s', e'⟩ := pair
      simp only [breakAtLastDot, hb] at h
      injection h with h
      injection h with hs he
      rw [← hs, ← he]
      simp [ih hb]
    | none =>
      simp only [breakAtLastDot, hb] at h
      by_cases hc : c = '.'
      · simp only [if_pos hc] at h
        injection h with h
        injection h with hs he
        rw [← hs, ← he]
        simp
      · simp only [if_neg hc] at h
        exact Option.noConfusion h

/-- Stem and extension reassemble to the filename. -/
theorem splitStemExt_append (name : List Char) :
    (splitStemExt name).1 ++ (splitStemExt name).2 = name := by
  unfold splitStemExt
  split
  · simp
  · cases hb : breakAtLastDot name with
    | some pair =>
      obtain ⟨s, e⟩ := pair
      simp only [hb]
      exact (breakAtLastDot_append hb).symm
    | none => simp [hb]

/--
Claim C9 counterexample.  The claim states that every basename longer
than the configured width W elides to exactly W characters containing
"..." and ending with the extension.  For W = 10 and the 20-character
basename "ab.verylongextension" the reserve budget
W - (len(ext) + 3 + 1 + 2) is negative, so _GetFilenameToDisplay
truncates the stem outright: the result is "ab", 2 characters long, with
no ellipsis and no extension.
-/
theorem C9_elision_counterexample :
    10 < ("ab.verylongextension").data.length
    ∧ cpplog.internal.elideFilename 10 ("ab.verylongextension").data = ("ab").data
    ∧ ¬ ((cpplog.internal.elideFilename 10 ("ab.verylongextension").data).length = 10) :=
  ⟨by decide, by decide, by decide⟩

/--
Claim C9, amended.  A basename of length at most W is left-padded with
spaces to exactly width W.  A longer basename with positive reserve
budget W - (len(ext)+3+1+2) elides to exactly W characters of the form
stem-prefix ++ "..." ++ last-two-of-stem ++ "." ++ ext; when the budget
is non-positive the stem is truncated to at most W characters outright
(so the result may be shorter than W and need not contain "..." or end
with the extension).  Concretely, at W = 10 the name
"a_very_long_filename.cc" elides to "a...me..cc" (10 characters, ending
in ".cc" and containing "...").
-/
theorem C9_elision :
    (∀ (w : Nat) (name : List Char), name.length ≤ w →
        cpplog.internal.elideFilename w name
            = List.replicate (w - name.length) ' ' ++ name
        ∧ (cpplog.internal.elideFilename w name).length = w)
    ∧ (∀ (w : Nat) (name : List Char), w < name.length →
        0 < (w : Int) - (((splitStemExt name).2.length : Int) + 3 + 1 + 2) →
        cpplog.internal.elideFilename w name
            = (splitStemExt name).1.take (w - ((splitStemExt name).2.length + 6))
              ++ ellipsis
              ++ (splitStemExt name).1.drop ((splitStemExt name).1.length - 2)
              ++ '.' :: (splitStemExt name).2
        ∧ (cpplog.internal.elideFilename w name).length = w)
    ∧ (∀ (w : Nat) (name : List Char), w < name.length →
        (w : Int) - (((splitStemExt name).2.length : Int) + 3 + 1 + 2) ≤ 0 →
        cpplog.internal.elideFilename w name = (splitStemExt name).1.take w)
    ∧ cpplog.internal.elideFilename 10 ("a_very_long_filename.cc").data
        = ("a...me..cc").data := by
  refine ⟨?_, ?_, ?_, by decide⟩
  · intro w name h
    have he : cpplog.internal.elideFilename w name
        = List.replicate (w - name.length) ' ' ++ name := by
      unfold cpplog.internal.elideFilename
      rw [if_pos h]
    refine ⟨he, ?_⟩
    rw [he]
    simp only [List.length_append, List.length_replicate]
    omega
  · intro w name hlen hpos
    have hne : ¬ name.length ≤ w := by omega
    have hnpos :
        ¬ ((w : Int) - (((splitStemExt name).2.length : Int) + 3 + 1 + 2) ≤ 0) := by
      omega
    have hsum : (splitStemExt name).1.length + (splitStemExt name).2.length
        = name.length := by
      have hh := congrArg List.length (splitStemExt_append name)
      simpa [List.length_append] using hh
    have hE : (splitStemExt name).2.length + 7 ≤ w := by omega
    have htn : ((w : Int) - (((splitStemExt name).2.length : Int) + 3 + 1 + 2)).toNat
        = w - ((splitStemExt name).2.length + 6) := by omega
    have he : cpplog.internal.elideFilename w name
        = (splitStemExt name).1.take (w - ((splitStemExt name).2.length + 6))
          ++ ellipsis
          ++ (splitStemExt name).1.drop ((splitStemExt name).1.length - 2)
          ++ '.' :: (splitStemExt name).2 := by
      unfold cpplog.internal.elideFilename
      rw [if_neg hne, if_neg hnpos, htn]
    refine ⟨he, ?_⟩
    rw [he]
    simp only [List.length_append, List.length_take, List.length_drop,
      List.length_cons, ellipsis, List.length_nil]
    omega
  · intro w name hlen hle
    have hne : ¬ name.length ≤ w := by omega
    unfold cpplog.internal.elideFilename
    rw [if_neg hne, if_pos hle]

/--
Witness for C9_elision: the positive-budget conjunct applied at W = 10 to
"a_very_long_filename.cc".
-/
theorem C9_elision_witness :
    (cpplog.internal.elideFilename 10 ("a_very_long_filename.cc").data).length = 10 :=
  (C9_elision.2.1 10 ("a_very_long_filename.cc").data (by decide) (by decide)).2
